import Mathlib

/-!
Verification of the secure password-generation core of the repository
(`Password_Generator/passGenerator.py`).

The Python code is embedded shallowly:

* `string.ascii_lowercase`, `string.ascii_uppercase`, `string.digits` and the
  literal symbol string of the source are concrete `String` constants;
* `secrets.choice(seq)` draws `seq[randbelow(len(seq))]`; randomness is made
  explicit as a stream `rand : Nat → Nat` consumed at increasing positions,
  and `randbelow(n)` applied to the stream value `r` is modelled as `r % n`;
* `secrets.SystemRandom().shuffle` is CPython's in-place Fisher–Yates:
  `for i in reversed(range(1, len(x))): j = randbelow(i+1); x[i],x[j] = x[j],x[i]`;
* `generate_password` returns `Except String String`: `Except.error msg`
  models `raise ValueError(msg)`.
-/

namespace PassGen

/-- `string.ascii_lowercase`. -/
def ascii_lowercase : String := "abcdefghijklmnopqrstuvwxyz"

/-- `string.ascii_uppercase`. -/
def ascii_uppercase : String := "ABCDEFGHIJKLMNOPQRSTUVWXYZ"

/-- `string.digits`. -/
def string_digits : String := "0123456789"

/-- The literal symbol pool of the source:
`"!@#$%^&*()-_=+[]{};:,.?/\\|"` (a Python string literal whose final
backslash escape denotes a single backslash). -/
def symbol_pool : String := "!@#$%^&*()-_=+[]\x7b\x7d;:,.?/\\|"

/-- The `ValueError` message raised for a non-positive length; the spec names
this failure `InvalidLength`. -/
def InvalidLength : String := "Password length must be positive."

/-- The `ValueError` message raised for an empty selection; the spec names
this failure `NoCategorySelected`. -/
def NoCategorySelected : String := "At least one character category must be selected."

/-- `build_character_pool`: collects the pools of the enabled categories in
the fixed order lowercase, uppercase, digits, symbols and joins them. -/
def build_character_pool (il iu idg isym : Bool) : String :=
  let pool_parts : List String :=
    (if il then [ascii_lowercase] else []) ++
    (if iu then [ascii_uppercase] else []) ++
    (if idg then [string_digits] else []) ++
    (if isym then [symbol_pool] else [])
  String.join pool_parts

/-- `secrets.choice(s)`: `s[randbelow(len(s))]`, with the uniform index in
`[0, len s)` modelled as `r % len s` for the stream value `r`.  The default
returned on an empty string is never reached by the generator, which only
draws from non-empty pools. -/
def choice (r : Nat) (s : String) : Char := s.data.getD (r % s.data.length) '?'

/-- One `if include_x: password_chars.append(secrets.choice(x_pool))` step of
the guarantee phase, threading the list of drawn characters and the position
in the randomness stream. -/
def appendGuarantee (flag : Bool) (catPool : String) (rand : Nat → Nat)
    (st : List Char × Nat) : List Char × Nat :=
  if flag then (st.1 ++ [choice (rand st.2) catPool], st.2 + 1) else st

/-- The guarantee phase of `generate_password`: one character from each
enabled category's own pool, in the fixed category order. -/
def guaranteeChars (il iu idg isym : Bool) (rand : Nat → Nat) : List Char × Nat :=
  appendGuarantee isym symbol_pool rand
    (appendGuarantee idg string_digits rand
      (appendGuarantee iu ascii_uppercase rand
        (appendGuarantee il ascii_lowercase rand ([], 0))))

/-- The fill phase: `while len(password_chars) < length:
password_chars.append(secrets.choice(pool))`.  The requested length is an
`Int` because the Python parameter is a (possibly negative) `int`. -/
def fillChars (rand : Nat → Nat) (pool : String) (len : Int) (k : Nat)
    (acc : List Char) : List Char × Nat :=
  if (acc.length : Int) < len then
    fillChars rand pool len (k + 1) (acc ++ [choice (rand k) pool])
  else
    (acc, k)
termination_by (len - (acc.length : Int)).toNat
decreasing_by
  simp only [List.length_append, List.length_cons, List.length_nil]
  omega

/-- The simultaneous assignment `x[i], x[j] = x[j], x[i]` on a list. -/
def listSwap (l : List Char) (i j : Nat) : List Char :=
  (l.set i (l.getD j '?')).set j (l.getD i '?')

/-- The loop of CPython's `Random.shuffle`: the first argument of the
recursion is the loop index `i` running down from `len(x) - 1` to `1`
(represented here by the predecessor so that the recursion is structural),
and each step swaps position `i` with `j = randbelow(i + 1)`. -/
def shuffleGo (rand : Nat → Nat) : Nat → Nat → List Char → List Char
  | _, 0, l => l
  | k, i + 1, l => shuffleGo rand (k + 1) i (listSwap l (i + 1) (rand k % (i + 2)))

/-- `secrets.SystemRandom().shuffle`, made explicit over the randomness
stream starting at position `k`. -/
def shuffle (rand : Nat → Nat) (k : Nat) (l : List Char) : List Char :=
  shuffleGo rand k (l.length - 1) l

/-- The working buffer `password_chars` right before the shuffle: the
guarantee phase followed by the fill phase, with the stream position after
the last draw. -/
def passwordBuffer (len : Int) (il iu idg isym : Bool) (rand : Nat → Nat) :
    List Char × Nat :=
  let st := guaranteeChars il iu idg isym rand
  fillChars rand (build_character_pool il iu idg isym) len st.2 st.1

/-- `generate_password(length, include_lower=il, include_upper=iu,
include_digits=idg, include_symbols=isym)`: validate the length, build the
pool, guarantee one character per enabled category, fill up to `length`,
shuffle, and return the buffer truncated to `length` characters. -/
def generate_password (len : Int) (il iu idg isym : Bool) (rand : Nat → Nat) :
    Except String String :=
  if len ≤ 0 then
    Except.error InvalidLength
  else if build_character_pool il iu idg isym = "" then
    Except.error NoCategorySelected
  else
    let st := passwordBuffer len il iu idg isym rand
    Except.ok (String.mk ((shuffle rand st.2 st.1).take len.toNat))

/-- The number of enabled categories of a selection. -/
def numCategories (il iu idg isym : Bool) : Nat :=
  (if il then 1 else 0) + (if iu then 1 else 0) +
  (if idg then 1 else 0) + (if isym then 1 else 0)

lemma count_set (l : List Char) (i : Nat) (hi : i < l.length) (a c : Char) :
    List.count c (l.set i a) + (if l[i] = c then 1 else 0) =
      List.count c l + (if a = c then 1 else 0) := by
  rw [List.set_eq_take_cons_drop a hi]
  conv_rhs => rw [← List.take_append_drop i l]
  rw [List.drop_eq_getElem_cons hi]
  simp only [List.count_append, List.count_cons, beq_iff_eq]
  split <;> split <;> omega

lemma perm_listSwap (l : List Char) (i j : Nat) (hi : i < l.length) (hj : j < l.length) :
    (listSwap l i j).Perm l := by
  rw [List.perm_iff_count]
  intro c
  unfold listSwap
  rw [List.getD_eq_getElem l '?' hj, List.getD_eq_getElem l '?' hi]
  have hj2 : j < (l.set i l[j]).length := by rw [List.length_set]; exact hj
  have e1 := count_set (l.set i l[j]) j hj2 l[i] c
  have e2 := count_set l i hi l[j] c
  rw [List.getElem_set, ite_self] at e1
  split_ifs at e1 e2 <;> omega

lemma shuffleGo_perm (rand : Nat → Nat) :
    ∀ (i : Nat) (k : Nat) (l : List Char), i < l.length → (shuffleGo rand k i l).Perm l := by
  intro i
  induction i with
  | zero => intro k l _; simp [shuffleGo]
  | succ i ih =>
    intro k l h
    have hj : rand k % (i + 2) < l.length :=
      lt_of_lt_of_le (Nat.mod_lt _ (by omega)) (by omega)
    have hswap : (listSwap l (i + 1) (rand k % (i + 2))).Perm l := perm_listSwap l _ _ h hj
    have hlen : (listSwap l (i + 1) (rand k % (i + 2))).length = l.length := hswap.length_eq
    exact (ih (k + 1) _ (by omega)).trans hswap

lemma shuffle_perm (rand : Nat → Nat) (k : Nat) (l : List Char) :
    (shuffle rand k l).Perm l := by
  cases l with
  | nil => simp [shuffle, shuffleGo]
  | cons a t =>
    exact shuffleGo_perm rand _ k (a :: t) (by simp)

lemma fillChars_spec (rand : Nat → Nat) (pool : String) (len : Int) (k : Nat)
    (acc : List Char) :
    ∃ ext : List Char,
      fillChars rand pool len k acc = (acc ++ ext, k + ext.length) ∧
      (∀ c ∈ ext, ∃ r, c = choice r pool) ∧
      (acc ++ ext).length = max acc.length len.toNat := by
  rw [fillChars]
  split
  case isTrue h =>
    obtain ⟨ext, h1, h2, h3⟩ := fillChars_spec rand pool len (k + 1) (acc ++ [choice (rand k) pool])
    refine ⟨choice (rand k) pool :: ext, ?_, ?_, ?_⟩
    · rw [h1]
      simp [List.append_assoc]
      omega
    · intro c hc
      rcases List.mem_cons.mp hc with hc | hc
      · exact ⟨rand k, by simp [hc]⟩
      · exact h2 c hc
    · simp only [List.length_append, List.length_cons, List.length_nil] at h3 ⊢
      omega
  case isFalse h =>
    exact ⟨[], by simp, by simp, by simp; omega⟩
termination_by (len - (acc.length : Int)).toNat
decreasing_by
  simp only [List.length_append, List.length_cons, List.length_nil]
  omega

lemma choice_mem (r : Nat) (s : String) (h : s.data ≠ []) : choice r s ∈ s.data := by
  unfold choice
  have hlen : 0 < s.data.length := List.length_pos.mpr h
  rw [List.getD_eq_getElem _ _ (Nat.mod_lt _ hlen)]
  exact List.getElem_mem _

lemma appendGuarantee_subset (flag : Bool) (catPool : String) (rand : Nat → Nat)
    (st : List Char × Nat) : ∀ c ∈ st.1, c ∈ (appendGuarantee flag catPool rand st).1 := by
  intro c hc
  unfold appendGuarantee
  split <;> simp [hc]

lemma appendGuarantee_covers (catPool : String) (rand : Nat → Nat) (st : List Char × Nat) :
    ∃ c ∈ (appendGuarantee true catPool rand st).1, ∃ r, c = choice r catPool :=
  ⟨choice (rand st.2) catPool, by simp [appendGuarantee], rand st.2, rfl⟩

lemma appendGuarantee_closure (flag : Bool) (catPool : String) (rand : Nat → Nat)
    (st : List Char × Nat) :
    ∀ c ∈ (appendGuarantee flag catPool rand st).1,
      c ∈ st.1 ∨ (flag = true ∧ ∃ r, c = choice r catPool) := by
  intro c hc
  by_cases hf : flag
  · simp only [appendGuarantee, if_pos hf] at hc
    rcases List.mem_append.mp hc with h | h
    · exact Or.inl h
    · exact Or.inr ⟨hf, rand st.2, by simpa using h⟩
  · simp only [appendGuarantee, if_neg hf] at hc
    exact Or.inl hc

lemma appendGuarantee_len (flag : Bool) (catPool : String) (rand : Nat → Nat)
    (st : List Char × Nat) :
    (appendGuarantee flag catPool rand st).1.length =
      st.1.length + (if flag then 1 else 0) := by
  unfold appendGuarantee
  split <;> simp

lemma guaranteeChars_len (il iu idg isym : Bool) (rand : Nat → Nat) :
    (guaranteeChars il iu idg isym rand).1.length = numCategories il iu idg isym := by
  unfold guaranteeChars numCategories
  rw [appendGuarantee_len, appendGuarantee_len, appendGuarantee_len, appendGuarantee_len]
  simp only [List.length_nil]
  omega

lemma guaranteeChars_covers_lower (il iu idg isym : Bool) (rand : Nat → Nat) (h : il = true) :
    ∃ c ∈ (guaranteeChars il iu idg isym rand).1, ∃ r, c = choice r ascii_lowercase := by
  subst h
  obtain ⟨c, hc, hr⟩ := appendGuarantee_covers ascii_lowercase rand ([], 0)
  exact ⟨c, appendGuarantee_subset _ _ _ _ c
    (appendGuarantee_subset _ _ _ _ c (appendGuarantee_subset _ _ _ _ c hc)), hr⟩

lemma guaranteeChars_covers_upper (il iu idg isym : Bool) (rand : Nat → Nat) (h : iu = true) :
    ∃ c ∈ (guaranteeChars il iu idg isym rand).1, ∃ r, c = choice r ascii_uppercase := by
  subst h
  obtain ⟨c, hc, hr⟩ := appendGuarantee_covers ascii_uppercase rand
    (appendGuarantee il ascii_lowercase rand ([], 0))
  exact ⟨c, appendGuarantee_subset _ _ _ _ c (appendGuarantee_subset _ _ _ _ c hc), hr⟩

lemma guaranteeChars_covers_digits (il iu idg isym : Bool) (rand : Nat → Nat) (h : idg = true) :
    ∃ c ∈ (guaranteeChars il iu idg isym rand).1, ∃ r, c = choice r string_digits := by
  subst h
  obtain ⟨c, hc, hr⟩ := appendGuarantee_covers string_digits rand
    (appendGuarantee iu ascii_uppercase rand (appendGuarantee il ascii_lowercase rand ([], 0)))
  exact ⟨c, appendGuarantee_subset _ _ _ _ c hc, hr⟩

lemma guaranteeChars_covers_symbols (il iu idg isym : Bool) (rand : Nat → Nat) (h : isym = true) :
    ∃ c ∈ (guaranteeChars il iu idg isym rand).1, ∃ r, c = choice r symbol_pool := by
  subst h
  exact appendGuarantee_covers symbol_pool rand
    (appendGuarantee idg string_digits rand
      (appendGuarantee iu ascii_uppercase rand (appendGuarantee il ascii_lowercase rand ([], 0))))

lemma guaranteeChars_closure (il iu idg isym : Bool) (rand : Nat → Nat) :
    ∀ c ∈ (guaranteeChars il iu idg isym rand).1,
      (il = true ∧ ∃ r, c = choice r ascii_lowercase) ∨
      (iu = true ∧ ∃ r, c = choice r ascii_uppercase) ∨
      (idg = true ∧ ∃ r, c = choice r string_digits) ∨
      (isym = true ∧ ∃ r, c = choice r symbol_pool) := by
  intro c hc
  unfold guaranteeChars at hc
  rcases appendGuarantee_closure _ _ _ _ c hc with hc | h
  · rcases appendGuarantee_closure _ _ _ _ c hc with hc | h
    · rcases appendGuarantee_closure _ _ _ _ c hc with hc | h
      · rcases appendGuarantee_closure _ _ _ _ c hc with hc | h
        · simp at hc
        · exact Or.inl h
      · exact Or.inr (Or.inl h)
    · exact Or.inr (Or.inr (Or.inl h))
  · exact Or.inr (Or.inr (Or.inr h))

lemma build_pool_data (il iu idg isym : Bool) :
    (build_character_pool il iu idg isym).data =
      (if il then ascii_lowercase.data else []) ++
      (if iu then ascii_uppercase.data else []) ++
      (if idg then string_digits.data else []) ++
      (if isym then symbol_pool.data else []) := by
  cases il <;> cases iu <;> cases idg <;> cases isym <;> rfl

lemma mem_build_pool (c : Char) (il iu idg isym : Bool) :
    c ∈ (build_character_pool il iu idg isym).data ↔
      (il = true ∧ c ∈ ascii_lowercase.data) ∨ (iu = true ∧ c ∈ ascii_uppercase.data) ∨
      (idg = true ∧ c ∈ string_digits.data) ∨ (isym = true ∧ c ∈ symbol_pool.data) := by
  rw [build_pool_data]
  cases il <;> cases iu <;> cases idg <;> cases isym <;> simp [List.mem_append]

lemma build_pool_empty_iff (il iu idg isym : Bool) :
    build_character_pool il iu idg isym = "" ↔
      il = false ∧ iu = false ∧ idg = false ∧ isym = false := by
  cases il <;> cases iu <;> cases idg <;> cases isym <;> decide

lemma build_pool_ne_of_cat (il iu idg isym : Bool)
    (h : 1 ≤ numCategories il iu idg isym) :
    build_character_pool il iu idg isym ≠ "" := by
  cases il <;> cases iu <;> cases idg <;> cases isym <;> revert h <;> decide

lemma passwordBuffer_spec (len : Int) (il iu idg isym : Bool) (rand : Nat → Nat) :
    ∃ ext : List Char,
      (passwordBuffer len il iu idg isym rand).1 =
        (guaranteeChars il iu idg isym rand).1 ++ ext ∧
      (∀ c ∈ ext, ∃ r, c = choice r (build_character_pool il iu idg isym)) ∧
      (passwordBuffer len il iu idg isym rand).1.length =
        max (numCategories il iu idg isym) len.toNat := by
  unfold passwordBuffer
  obtain ⟨ext, h1, h2, h3⟩ := fillChars_spec rand (build_character_pool il iu idg isym) len
    (guaranteeChars il iu idg isym rand).2 (guaranteeChars il iu idg isym rand).1
  refine ⟨ext, by rw [h1], h2, ?_⟩
  rw [h1]
  simpa [guaranteeChars_len] using h3

lemma generate_ok (len : Int) (il iu idg isym : Bool) (rand : Nat → Nat)
    (hlen : 1 ≤ len) (hpool : build_character_pool il iu idg isym ≠ "") :
    generate_password len il iu idg isym rand =
      Except.ok (String.mk ((shuffle rand (passwordBuffer len il iu idg isym rand).2
        (passwordBuffer len il iu idg isym rand).1).take len.toNat)) := by
  unfold generate_password
  rw [if_neg (by omega), if_neg hpool]

lemma lower_upper_disj : ∀ c ∈ ascii_lowercase.data, c ∉ ascii_uppercase.data := by decide

lemma lower_digits_disj : ∀ c ∈ ascii_lowercase.data, c ∉ string_digits.data := by decide

lemma lower_symbols_disj : ∀ c ∈ ascii_lowercase.data, c ∉ symbol_pool.data := by decide

lemma upper_digits_disj : ∀ c ∈ ascii_uppercase.data, c ∉ string_digits.data := by decide

lemma upper_symbols_disj : ∀ c ∈ ascii_uppercase.data, c ∉ symbol_pool.data := by decide

lemma digits_symbols_disj : ∀ c ∈ string_digits.data, c ∉ symbol_pool.data := by decide

lemma data_ne_nil_of_ne_empty (s : String) (h : s ≠ "") : s.data ≠ [] := by
  intro hd
  apply h
  cases s with
  | mk d =>
    simp only [String.data] at hd
    rw [hd]

lemma result_chars_closure (len : Int) (il iu idg isym : Bool) (rand : Nat → Nat)
    (hcat : 1 ≤ numCategories il iu idg isym) :
    ∀ c ∈ (shuffle rand (passwordBuffer len il iu idg isym rand).2
        (passwordBuffer len il iu idg isym rand).1).take len.toNat,
      (il = true ∧ c ∈ ascii_lowercase.data) ∨ (iu = true ∧ c ∈ ascii_uppercase.data) ∨
      (idg = true ∧ c ∈ string_digits.data) ∨ (isym = true ∧ c ∈ symbol_pool.data) := by
  intro c hc
  have hbuf : c ∈ (passwordBuffer len il iu idg isym rand).1 :=
    ((shuffle_perm rand _ _).mem_iff).mp (List.mem_of_mem_take hc)
  obtain ⟨ext, h1, h2, _⟩ := passwordBuffer_spec len il iu idg isym rand
  rw [h1] at hbuf
  rcases List.mem_append.mp hbuf with h | h
  · rcases guaranteeChars_closure il iu idg isym rand c h with
      ⟨hf, r, hr⟩ | ⟨hf, r, hr⟩ | ⟨hf, r, hr⟩ | ⟨hf, r, hr⟩
    · exact Or.inl ⟨hf, hr ▸ choice_mem r _ (by decide)⟩
    · exact Or.inr (Or.inl ⟨hf, hr ▸ choice_mem r _ (by decide)⟩)
    · exact Or.inr (Or.inr (Or.inl ⟨hf, hr ▸ choice_mem r _ (by decide)⟩))
    · exact Or.inr (Or.inr (Or.inr ⟨hf, hr ▸ choice_mem r _ (by decide)⟩))
  · obtain ⟨r, hr⟩ := h2 c h
    have hmem : c ∈ (build_character_pool il iu idg isym).data :=
      hr ▸ choice_mem r _ (data_ne_nil_of_ne_empty _ (build_pool_ne_of_cat il iu idg isym hcat))
    exact (mem_build_pool c il iu idg isym).mp hmem

/-- C2: for every valid input (integer length at least 1, at least one category
enabled, length at least the number of enabled categories), `generate_password`
returns a string of exactly `length` characters. -/
theorem generate_password_length_exact (len : Int) (il iu idg isym : Bool) (rand : Nat → Nat)
    (hlen : 1 ≤ len) (hcat : 1 ≤ numCategories il iu idg isym)
    (hfit : (numCategories il iu idg isym : Int) ≤ len) :
    ∃ s, generate_password len il iu idg isym rand = Except.ok s ∧ s.length = len.toNat := by
  have hpool := build_pool_ne_of_cat il iu idg isym hcat
  rw [generate_ok len il iu idg isym rand hlen hpool]
  refine ⟨_, rfl, ?_⟩
  obtain ⟨ext, h1, h2, h3⟩ := passwordBuffer_spec len il iu idg isym rand
  have hsl : (shuffle rand (passwordBuffer len il iu idg isym rand).2
      (passwordBuffer len il iu idg isym rand).1).length =
      max (numCategories il iu idg isym) len.toNat :=
    (shuffle_perm rand _ _).length_eq.trans h3
  show (List.take len.toNat _).length = len.toNat
  rw [List.length_take, hsl]
  omega

/-- C2 witness: `generate_password 12` with all four categories enabled returns
a 12-character string. -/
theorem generate_password_length_exact_witness :
    ∃ s, generate_password 12 true true true true (fun _ => 0) = Except.ok s ∧
      s.length = (12 : Int).toNat :=
  generate_password_length_exact 12 true true true true (fun _ => 0)
    (by decide) (by decide) (by decide)

/-- C5: for every integer length below 1 and every selection, `generate_password`
fails with the `InvalidLength` error (the `ValueError` text
"Password length must be positive.") and returns no password. -/
theorem generate_password_invalid_length (len : Int) (il iu idg isym : Bool)
    (rand : Nat → Nat) (h : len < 1) :
    generate_password len il iu idg isym rand = Except.error InvalidLength := by
  unfold generate_password
  rw [if_pos (by omega)]

/-- C5 witness: `generate(0, Lowercase only)` fails with `InvalidLength`. -/
theorem generate_password_invalid_length_witness :
    generate_password 0 true false false false (fun _ => 0) = Except.error InvalidLength :=
  generate_password_invalid_length 0 true false false false (fun _ => 0) (by decide)

/-- C6: for every integer length at least 1 and the empty selection,
`generate_password` fails with the `NoCategorySelected` error (the `ValueError`
text "At least one character category must be selected."). -/
theorem generate_password_no_category (len : Int) (rand : Nat → Nat) (h : 1 ≤ len) :
    generate_password len false false false false rand = Except.error NoCategorySelected := by
  unfold generate_password
  rw [if_neg (by omega), if_pos (by decide)]

/-- C6 witness: `generate(5, no categories)` fails with `NoCategorySelected`. -/
theorem generate_password_no_category_witness :
    generate_password 5 false false false false (fun _ => 0) = Except.error NoCategorySelected :=
  generate_password_no_category 5 (fun _ => 0) (by decide)

/-- C3: for every valid input, the returned password contains, for every
enabled category, at least one character from that category's own pool. -/
theorem generate_password_category_coverage (len : Int) (il iu idg isym : Bool)
    (rand : Nat → Nat) (hlen : 1 ≤ len) (hcat : 1 ≤ numCategories il iu idg isym)
    (hfit : (numCategories il iu idg isym : Int) ≤ len) :
    ∃ s, generate_password len il iu idg isym rand = Except.ok s ∧
      (il = true → ∃ c ∈ s.data, c ∈ ascii_lowercase.data) ∧
      (iu = true → ∃ c ∈ s.data, c ∈ ascii_uppercase.data) ∧
      (idg = true → ∃ c ∈ s.data, c ∈ string_digits.data) ∧
      (isym = true → ∃ c ∈ s.data, c ∈ symbol_pool.data) := by
  have hpool := build_pool_ne_of_cat il iu idg isym hcat
  rw [generate_ok len il iu idg isym rand hlen hpool]
  obtain ⟨ext, h1, h2, h3⟩ := passwordBuffer_spec len il iu idg isym rand
  have hsl : (shuffle rand (passwordBuffer len il iu idg isym rand).2
      (passwordBuffer len il iu idg isym rand).1).length =
      max (numCategories il iu idg isym) len.toNat :=
    (shuffle_perm rand _ _).length_eq.trans h3
  have htake : (shuffle rand (passwordBuffer len il iu idg isym rand).2
      (passwordBuffer len il iu idg isym rand).1).take len.toNat =
      shuffle rand (passwordBuffer len il iu idg isym rand).2
        (passwordBuffer len il iu idg isym rand).1 :=
    List.take_of_length_le (by rw [hsl]; omega)
  have hmem : ∀ c ∈ (guaranteeChars il iu idg isym rand).1,
      c ∈ (shuffle rand (passwordBuffer len il iu idg isym rand).2
        (passwordBuffer len il iu idg isym rand).1).take len.toNat := by
    intro c hcg
    rw [htake]
    exact ((shuffle_perm rand _ _).mem_iff).mpr (h1 ▸ List.mem_append_left ext hcg)
  refine ⟨_, rfl, ?_, ?_, ?_, ?_⟩
  · intro hf
    obtain ⟨c, hc, r, hr⟩ := guaranteeChars_covers_lower il iu idg isym rand hf
    exact ⟨c, hmem c hc, hr ▸ choice_mem r _ (by decide)⟩
  · intro hf
    obtain ⟨c, hc, r, hr⟩ := guaranteeChars_covers_upper il iu idg isym rand hf
    exact ⟨c, hmem c hc, hr ▸ choice_mem r _ (by decide)⟩
  · intro hf
    obtain ⟨c, hc, r, hr⟩ := guaranteeChars_covers_digits il iu idg isym rand hf
    exact ⟨c, hmem c hc, hr ▸ choice_mem r _ (by decide)⟩
  · intro hf
    obtain ⟨c, hc, r, hr⟩ := guaranteeChars_covers_symbols il iu idg isym rand hf
    exact ⟨c, hmem c hc, hr ▸ choice_mem r _ (by decide)⟩

/-- C3 witness: `generate_password 12` with all four categories enabled covers
all four categories. -/
theorem generate_password_category_coverage_witness :
    ∃ s, generate_password 12 true true true true (fun n => n) = Except.ok s ∧
      (true = true → ∃ c ∈ s.data, c ∈ ascii_lowercase.data) ∧
      (true = true → ∃ c ∈ s.data, c ∈ ascii_uppercase.data) ∧
      (true = true → ∃ c ∈ s.data, c ∈ string_digits.data) ∧
      (true = true → ∃ c ∈ s.data, c ∈ symbol_pool.data) :=
  generate_password_category_coverage 12 true true true true (fun n => n)
    (by decide) (by decide) (by decide)

/-- C4: for every valid input, every character of the returned password lies
in the pool of some enabled category, and no character of a disabled
category's pool ever appears. -/
theorem generate_password_closure (len : Int) (il iu idg isym : Bool)
    (rand : Nat → Nat) (hlen : 1 ≤ len) (hcat : 1 ≤ numCategories il iu idg isym)
    (hfit : (numCategories il iu idg isym : Int) ≤ len) :
    ∃ s, generate_password len il iu idg isym rand = Except.ok s ∧
      (∀ c ∈ s.data,
        (il = true ∧ c ∈ ascii_lowercase.data) ∨ (iu = true ∧ c ∈ ascii_uppercase.data) ∨
        (idg = true ∧ c ∈ string_digits.data) ∨ (isym = true ∧ c ∈ symbol_pool.data)) ∧
      (il = false → ∀ c ∈ s.data, c ∉ ascii_lowercase.data) ∧
      (iu = false → ∀ c ∈ s.data, c ∉ ascii_uppercase.data) ∧
      (idg = false → ∀ c ∈ s.data, c ∉ string_digits.data) ∧
      (isym = false → ∀ c ∈ s.data, c ∉ symbol_pool.data) := by
  have hpool := build_pool_ne_of_cat il iu idg isym hcat
  rw [generate_ok len il iu idg isym rand hlen hpool]
  refine ⟨_, rfl, result_chars_closure len il iu idg isym rand hcat, ?_, ?_, ?_, ?_⟩
  · intro hf c hc
    rcases result_chars_closure len il iu idg isym rand hcat c hc with
      ⟨hg, hm⟩ | ⟨_, hm⟩ | ⟨_, hm⟩ | ⟨_, hm⟩
    · rw [hf] at hg; exact absurd hg (by decide)
    · exact fun hcl => lower_upper_disj c hcl hm
    · exact fun hcl => lower_digits_disj c hcl hm
    · exact fun hcl => lower_symbols_disj c hcl hm
  · intro hf c hc
    rcases result_chars_closure len il iu idg isym rand hcat c hc with
      ⟨_, hm⟩ | ⟨hg, hm⟩ | ⟨_, hm⟩ | ⟨_, hm⟩
    · exact lower_upper_disj c hm
    · rw [hf] at hg; exact absurd hg (by decide)
    · exact fun hcu => upper_digits_disj c hcu hm
    · exact fun hcu => upper_symbols_disj c hcu hm
  · intro hf c hc
    rcases result_chars_closure len il iu idg isym rand hcat c hc with
      ⟨_, hm⟩ | ⟨_, hm⟩ | ⟨hg, hm⟩ | ⟨_, hm⟩
    · exact lower_digits_disj c hm
    · exact upper_digits_disj c hm
    · rw [hf] at hg; exact absurd hg (by decide)
    · exact fun hcd => digits_symbols_disj c hcd hm
  · intro hf c hc
    rcases result_chars_closure len il iu idg isym rand hcat c hc with
      ⟨_, hm⟩ | ⟨_, hm⟩ | ⟨_, hm⟩ | ⟨hg, hm⟩
    · exact lower_symbols_disj c hm
    · exact upper_symbols_disj c hm
    · exact digits_symbols_disj c hm
    · rw [hf] at hg; exact absurd hg (by decide)

/-- C4 witness: `generate_password 6` with lowercase and digits enabled stays
inside those two pools and avoids uppercase and symbols. -/
theorem generate_password_closure_witness :
    ∃ s, generate_password 6 true false true false (fun n => 3 * n + 1) = Except.ok s ∧
      (∀ c ∈ s.data,
        (true = true ∧ c ∈ ascii_lowercase.data) ∨ (false = true ∧ c ∈ ascii_uppercase.data) ∨
        (true = true ∧ c ∈ string_digits.data) ∨ (false = true ∧ c ∈ symbol_pool.data)) ∧
      (true = false → ∀ c ∈ s.data, c ∉ ascii_lowercase.data) ∧
      (false = false → ∀ c ∈ s.data, c ∉ ascii_uppercase.data) ∧
      (true = false → ∀ c ∈ s.data, c ∉ string_digits.data) ∧
      (false = false → ∀ c ∈ s.data, c ∉ symbol_pool.data) :=
  generate_password_closure 6 true false true false (fun n => 3 * n + 1)
    (by decide) (by decide) (by decide)

/-- C1: contrary to the claim (and to the function's own docstring guarantee),
`generate_password` does not fail when the number of enabled categories
exceeds the requested length: `generate(2, Lowercase+Uppercase+Digit)` returns
the 2-character password "A0" (for the all-zero randomness stream), which
contains no lowercase character although lowercase is enabled. -/
theorem short_length_truncates_without_error :
    generate_password 2 true true true false (fun _ => 0) = Except.ok "A0" ∧
    ∀ c ∈ ("A0" : String).data, c ∉ ascii_lowercase.data := by
  constructor
  · rw [generate_password]
    rw [if_neg (by decide), if_neg (by decide)]
    simp only [passwordBuffer, guaranteeChars, appendGuarantee, choice,
      ascii_lowercase, ascii_uppercase, string_digits, build_character_pool]
    rw [fillChars]
    simp [shuffle, shuffleGo, listSwap]
  · decide

/-- C7 counterexample: with no category enabled, `build_character_pool` does
not fail; it returns the empty string to its caller. -/
theorem build_character_pool_returns_empty :
    build_character_pool false false false false = "" := rfl

/-- C7 amended: `build_character_pool` returns the empty string exactly when
no category is enabled, and it is its caller `generate_password` that reports
`NoCategorySelected` on finding the returned pool empty (for any length not
rejected earlier as invalid). -/
theorem empty_pool_error_raised_by_caller (il iu idg isym : Bool) (len : Int)
    (rand : Nat → Nat) (hlen : 1 ≤ len)
    (hempty : build_character_pool il iu idg isym = "") :
    il = false ∧ iu = false ∧ idg = false ∧ isym = false ∧
    generate_password len il iu idg isym rand = Except.error NoCategorySelected := by
  obtain ⟨h1, h2, h3, h4⟩ := (build_pool_empty_iff il iu idg isym).mp hempty
  refine ⟨h1, h2, h3, h4, ?_⟩
  unfold generate_password
  rw [if_neg (by omega), if_pos hempty]

/-- C7 amended witness: the empty selection at length 5. -/
theorem empty_pool_error_raised_by_caller_witness :
    false = false ∧ false = false ∧ false = false ∧ false = false ∧
    generate_password 5 false false false false (fun _ => 0) =
      Except.error NoCategorySelected :=
  empty_pool_error_raised_by_caller false false false false 5 (fun _ => 0)
    (by decide) (by decide)

/-- C8: `build_character_pool` is the concatenation of the enabled categories'
pools in the fixed order lowercase, uppercase, digits, symbols (each pool kept
in its internal order), and the symbol pool is exactly the documented
26-character list. -/
theorem build_character_pool_concatenation (il iu idg isym : Bool) :
    build_character_pool il iu idg isym =
      (if il then ascii_lowercase else "") ++ (if iu then ascii_uppercase else "") ++
      (if idg then string_digits else "") ++ (if isym then symbol_pool else "") ∧
    symbol_pool.data =
      ['!', '@', '#', '$', '%', '^', '&', '*', '(', ')', '-', '_', '=', '+',
       '[', ']', '\x7b', '\x7d', ';', ':', ',', '.', '?', '/', '\\', '|'] ∧
    symbol_pool.length = 26 := by
  refine ⟨?_, by decide, by decide⟩
  cases il <;> cases iu <;> cases idg <;> cases isym <;> rfl

/-- C10: when the number of enabled categories strictly exceeds the requested
length (length at least 1), `generate_password` raises no error: it returns
exactly the shuffled working buffer truncated to `length` characters, and the
result can therefore omit an enabled category, as `generate(1, Lower+Upper)`
with the all-zero randomness stream shows: it returns "A", which contains no
lowercase character. -/
theorem oversized_selection_truncates :
    (∀ (len : Int) (il iu idg isym : Bool) (rand : Nat → Nat),
        1 ≤ len → len < (numCategories il iu idg isym : Int) →
        ∃ s, generate_password len il iu idg isym rand = Except.ok s ∧
          s.length = len.toNat ∧
          s.data = (shuffle rand (passwordBuffer len il iu idg isym rand).2
              (passwordBuffer len il iu idg isym rand).1).take len.toNat) ∧
    (generate_password 1 true true false false (fun _ => 0) = Except.ok "A" ∧
      ∀ c ∈ ("A" : String).data, c ∉ ascii_lowercase.data) := by
  refine ⟨?_, ?_, by decide⟩
  · intro len il iu idg isym rand hlen hover
    have hcat : 1 ≤ numCategories il iu idg isym := by omega
    have hpool := build_pool_ne_of_cat il iu idg isym hcat
    rw [generate_ok len il iu idg isym rand hlen hpool]
    refine ⟨_, rfl, ?_, rfl⟩
    obtain ⟨ext, h1, h2, h3⟩ := passwordBuffer_spec len il iu idg isym rand
    have hsl : (shuffle rand (passwordBuffer len il iu idg isym rand).2
        (passwordBuffer len il iu idg isym rand).1).length =
        max (numCategories il iu idg isym) len.toNat :=
      (shuffle_perm rand _ _).length_eq.trans h3
    show (List.take len.toNat _).length = len.toNat
    rw [List.length_take, hsl]
    omega
  · rw [generate_password]
    rw [if_neg (by decide), if_neg (by decide)]
    simp only [passwordBuffer, guaranteeChars, appendGuarantee, choice,
      ascii_lowercase, ascii_uppercase, build_character_pool]
    rw [fillChars]
    simp [shuffle, shuffleGo, listSwap]

/-- C10 witness: `generate(1, Lowercase+Uppercase)` succeeds with a
1-character result equal to the truncated shuffled buffer. -/
theorem oversized_selection_truncates_witness :
    ∃ s, generate_password 1 true true false false (fun _ => 0) = Except.ok s ∧
      s.length = (1 : Int).toNat ∧
      s.data = (shuffle (fun _ => 0)
          (passwordBuffer 1 true true false false (fun _ => 0)).2
          (passwordBuffer 1 true true false false (fun _ => 0)).1).take (1 : Int).toNat :=
  oversized_selection_truncates.1 1 true true false false (fun _ => 0)
    (by decide) (by decide)

end PassGen
